import Mathlib

/-!
Verification development for the `sf-ui` catalog browser.

This file gives a shallow embedding, in Lean, of the logic of the
repository: the relevance scorer, the catalog query gateway fan-out and
its deduplication, the author-name extraction, the suggestion
aggregator, the recent-search list, the book-fetch controller effect,
and the AI query relay HTTP handler.  JavaScript strings are modelled as
`List Char`; JavaScript `Map` objects are modelled as association lists
with the insertion-order semantics of the ECMAScript specification;
JavaScript `null`/`undefined` fields are modelled with `Option`; the
asynchronous network calls (the hosted data store and the completion
API) are supplied as oracle inputs, so every function here is a pure
function of its inputs.  JavaScript numbers appearing in ranking scores
are modelled as exact rationals (`1.2` as `12/10`, `count / 10` as an
exact division); the properties proved below do not depend on the
difference between exact rational and binary floating-point arithmetic.
-/

namespace SfUi

/-- JavaScript strings, modelled as their lists of characters. -/
abbrev Str := List Char

/-- Characters matched by JavaScript `\s` (and removed by `trim`):
the white-space and line-terminator code points. -/
def isJsWhitespace (c : Char) : Bool :=
  c == ' ' || c == '\t' || c == '\n' || c.toNat == 0x0B || c.toNat == 0x0C ||
  c == '\r' || c.toNat == 0xA0 || c.toNat == 0x1680 ||
  (0x2000 ≤ c.toNat && c.toNat ≤ 0x200A) || c.toNat == 0x2028 ||
  c.toNat == 0x2029 || c.toNat == 0x202F || c.toNat == 0x205F ||
  c.toNat == 0x3000 || c.toNat == 0xFEFF

/-- Model of `String.prototype.toLowerCase`, covering the Basic Latin and
Latin-1 letter ranges (the character ranges occurring in this catalog). -/
def jsToLower (c : Char) : Char :=
  if 'A' ≤ c ∧ c ≤ 'Z' then Char.ofNat (c.toNat + 32)
  else if 0xC0 ≤ c.toNat ∧ c.toNat ≤ 0xD6 then Char.ofNat (c.toNat + 32)
  else if 0xD8 ≤ c.toNat ∧ c.toNat ≤ 0xDE then Char.ofNat (c.toNat + 32)
  else c

/-- Model of the canonical decomposition step of `normalize('NFKD')`,
restricted to the precomposed Latin-1 lowercase letters (all other
characters decompose to themselves).  The marks are the combining
code points U+0300 (grave), U+0301 (acute), U+0302 (circumflex),
U+0303 (tilde), U+0308 (diaeresis), U+030A (ring) and U+0327 (cedilla). -/
def nfkdChar (c : Char) : Str :=
  match c with
  | 'à' => ['a', Char.ofNat 0x300]
  | 'á' => ['a', Char.ofNat 0x301]
  | 'â' => ['a', Char.ofNat 0x302]
  | 'ã' => ['a', Char.ofNat 0x303]
  | 'ä' => ['a', Char.ofNat 0x308]
  | 'å' => ['a', Char.ofNat 0x30A]
  | 'ç' => ['c', Char.ofNat 0x327]
  | 'è' => ['e', Char.ofNat 0x300]
  | 'é' => ['e', Char.ofNat 0x301]
  | 'ê' => ['e', Char.ofNat 0x302]
  | 'ë' => ['e', Char.ofNat 0x308]
  | 'ì' => ['i', Char.ofNat 0x300]
  | 'í' => ['i', Char.ofNat 0x301]
  | 'î' => ['i', Char.ofNat 0x302]
  | 'ï' => ['i', Char.ofNat 0x308]
  | 'ñ' => ['n', Char.ofNat 0x303]
  | 'ò' => ['o', Char.ofNat 0x300]
  | 'ó' => ['o', Char.ofNat 0x301]
  | 'ô' => ['o', Char.ofNat 0x302]
  | 'õ' => ['o', Char.ofNat 0x303]
  | 'ö' => ['o', Char.ofNat 0x308]
  | 'ù' => ['u', Char.ofNat 0x300]
  | 'ú' => ['u', Char.ofNat 0x301]
  | 'û' => ['u', Char.ofNat 0x302]
  | 'ü' => ['u', Char.ofNat 0x308]
  | 'ý' => ['y', Char.ofNat 0x301]
  | 'ÿ' => ['y', Char.ofNat 0x308]
  | c => [c]

/-- The `normalize('NFKD')` step of the scorer's normalization. -/
def nfkd (l : Str) : Str := (l.map nfkdChar).flatten

/-- The `.replace(/[̀-ͯ]/g, '')` step: remove the combining
diacritical marks block. -/
def stripMarks (l : Str) : Str :=
  l.filter (fun c => !(0x300 ≤ c.toNat && c.toNat ≤ 0x36F))

/-- Model of `String.prototype.trim`. -/
def trimList (l : Str) : Str :=
  ((l.dropWhile isJsWhitespace).reverse.dropWhile isJsWhitespace).reverse

/-- `normalize` from `app/page.tsx`: lowercase, NFKD-decompose, strip the
combining diacritical marks, trim surrounding whitespace. -/
def normalize (s : Str) : Str :=
  trimList (stripMarks (nfkd (s.map jsToLower)))

mutual

/-- Model of `c.split(/\s+/)`: `splitWsAux l acc` processes `l` with the
(reversed) characters of the current component accumulated in `acc`.
A whitespace character ends the current component, and the whole
whitespace run is then consumed as a single separator by `splitWsSkip`. -/
def splitWsAux : Str → Str → List Str
  | [], acc => [acc.reverse]
  | c :: t, acc =>
    if isJsWhitespace c then acc.reverse :: splitWsSkip t
    else splitWsAux t (c :: acc)

/-- Consume the remainder of a whitespace run; an exhausted input yields a
trailing empty component, as `split(/\s+/)` does on a trailing separator. -/
def splitWsSkip : Str → List Str
  | [] => [[]]
  | c :: t => if isJsWhitespace c then splitWsSkip t else splitWsAux t [c]

end

/-- `c.split(/\s+/)` on a JavaScript string. -/
def splitWs (l : Str) : List Str := splitWsAux l []

/-- `scoreMatch` from `app/page.tsx` (the identical function also appears in
the API route file): the tiered relevance scorer.  The local bindings
`q`/`c` of the source are inlined as `normalize query` / `normalize
candidate`; `startsWith`, the word test and `includes` become list prefix,
prefix-of-a-split-component, and infix respectively. -/
def scoreMatch (query candidate : Str) : Nat :=
  if normalize query = [] then 0
  else if normalize candidate = normalize query then 100
  else if normalize query <+: normalize candidate then 80
  else if ∃ w ∈ splitWs (normalize candidate), normalize query <+: w then 65
  else if normalize query <:+: normalize candidate then 45
  else 0

/-- Insertion-order association map, the model of a JavaScript `Map`:
`map.set(k, v)` updates the value in place when the key is present
(keeping the key's position) and appends the new entry otherwise. -/
def mapSet {κ β : Type} [DecidableEq κ] (m : List (κ × β)) (k : κ) (v : β) :
    List (κ × β) :=
  if m.any (fun p => p.1 == k) then
    m.map (fun p => if p.1 == k then (k, v) else p)
  else m ++ [(k, v)]

/-- `map.get(k)` on the association-list model of a JavaScript `Map`. -/
def mapGet {κ β : Type} [DecidableEq κ] (m : List (κ × β)) (k : κ) : Option β :=
  (m.find? (fun p => p.1 == k)).map Prod.snd

/-- `Author` from `lib/types.ts`: both name fields are nullable. -/
structure Author where
  display_name : Option Str
  sort_name : Option Str
deriving DecidableEq

/-- Contributor roles from `lib/types.ts`. -/
inductive Role
  | author
  | editor
deriving DecidableEq

/-- `BookContributor` from `lib/types.ts`. -/
structure BookContributor where
  role : Role
  credit_order : Option Int
  authors : Option Author
deriving DecidableEq

/-- `Publisher` from `lib/types.ts`. -/
structure Publisher where
  name : Str
deriving DecidableEq

/-- `Book` from `lib/types.ts` (the relational variant used by the
concatenated route/page file). -/
structure Book where
  id : Int
  title : Str
  sort_title : Option Str
  pub_year : Option Int
  series : Option Str
  work_type : Option Str
  tier : Option Str
  signed : Bool
  notes : Option Str
  created_at : Str
  publishers : Option Publisher
  book_contributors : Option (List BookContributor)
deriving DecidableEq

/-- `getAuthorDisplayName`: `author?.display_name ?? author?.sort_name ?? null`.
The `??` operator falls through only on `null`/`undefined`, so an empty
string in `display_name` is returned as-is. -/
def getAuthorDisplayName (a : Option Author) : Option Str :=
  match a with
  | none => none
  | some au =>
    match au.display_name with
    | some d => some d
    | none => au.sort_name

/-- `getBookPublisher`: `book.publishers?.name ?? null`. -/
def getBookPublisher (book : Book) : Option Str :=
  match book.publishers with
  | some p => some p.name
  | none => none

/-- `Number.MAX_SAFE_INTEGER`, the sort key substituted for a null credit
order in `getBookAuthors`. -/
def maxSafeInteger : Int := 2 ^ 53 - 1

/-- The numeric sort key of the author-contributor comparator:
`a.credit_order ?? Number.MAX_SAFE_INTEGER`. -/
def creditKey (c : BookContributor) : Int :=
  c.credit_order.getD maxSafeInteger

/-- Ascending comparison by a key into a linear order. -/
def byKeyLe {α β : Type} [LinearOrder β] (key : α → β) : α → α → Prop :=
  fun x y => key x ≤ key y

/-- Descending comparison by a key into a linear order; this is the order
realised by a JavaScript comparator `(a, b) => k(b) - k(a)`. -/
def byKeyGe {α β : Type} [LinearOrder β] (key : α → β) : α → α → Prop :=
  fun x y => key y ≤ key x

instance {α β : Type} [LinearOrder β] {key : α → β} :
    DecidableRel (byKeyLe key) :=
  fun x y => inferInstanceAs (Decidable (key x ≤ key y))

instance {α β : Type} [LinearOrder β] {key : α → β} :
    DecidableRel (byKeyGe key) :=
  fun x y => inferInstanceAs (Decidable (key y ≤ key x))

instance {α β : Type} [LinearOrder β] {key : α → β} :
    IsTotal α (byKeyLe key) :=
  ⟨fun x y => le_total (key x) (key y)⟩

instance {α β : Type} [LinearOrder β] {key : α → β} :
    IsTrans α (byKeyLe key) :=
  ⟨fun _ _ _ h1 h2 => le_trans h1 h2⟩

instance {α β : Type} [LinearOrder β] {key : α → β} :
    IsTotal α (byKeyGe key) :=
  ⟨fun x y => le_total (key y) (key x)⟩

instance {α β : Type} [LinearOrder β] {key : α → β} :
    IsTrans α (byKeyGe key) :=
  ⟨fun _ _ _ h1 h2 => le_trans h2 h1⟩

/-- The comparator of `getBookAuthors`, ascending on `creditKey` (nulls get
`Number.MAX_SAFE_INTEGER`, hence sort last). -/
abbrev creditLe : BookContributor → BookContributor → Prop := byKeyLe creditKey

/-- The role-`author` contributors of a book
(`(book.book_contributors ?? []).filter(c => c.role === 'author')`). -/
def authorContribs (book : Book) : List BookContributor :=
  (book.book_contributors.getD []).filter (fun c => c.role == Role.author)

/-- The author contributors sorted by the credit-order comparator.  The
ECMAScript `Array.prototype.sort` is a stable sort; a stable sort with
respect to a total preorder has a unique result, realised here by
`List.insertionSort`. -/
def sortedAuthorContribs (book : Book) : List BookContributor :=
  (authorContribs book).insertionSort creditLe

/-- `getBookAuthors` from the page: author contributors, sorted by credit
order (nulls last), projected to `display_name ?? sort_name`, keeping only
truthy names (`filter((name): name is string => !!name)` drops both the
null results and the empty string). -/
def getBookAuthors (book : Book) : List Str :=
  ((sortedAuthorContribs book).map
    (fun c => getAuthorDisplayName c.authors)).filterMap
    (fun o =>
      match o with
      | some n => if n.isEmpty then none else some n
      | none => none)

/-- Rendering of claim C5 exactly as stated: same ordering and name
selection, but a contributor is dropped only when both of its names are
absent — an empty-string name is kept.  Compared against `getBookAuthors`,
which follows the source. -/
def getBookAuthorsClaimed (book : Book) : List Str :=
  ((sortedAuthorContribs book).map
    (fun c => getAuthorDisplayName c.authors)).filterMap id

/-- `dedupeById` from the page: insert every row into a `Map` keyed by
`id` (later rows overwrite earlier ones in place), then take the map's
values in insertion order. -/
def dedupeById (rows : List Book) : List Book :=
  (rows.foldl (fun m r => mapSet m r.id r) []).map Prod.snd

/-- The `{ data, error }` shape returned by each gateway sub-query. -/
structure FetchResult where
  data : Option (List Book)
  error : Option Str
deriving DecidableEq

/-- The concatenation of the row sets of the three sub-queries, in the
source's spread order (`bookFieldResult`, `authorResult`,
`publisherResult`), each defaulted to `[]` when absent. -/
def allRows (r1 r2 r3 : FetchResult) : List Book :=
  r1.data.getD [] ++ r2.data.getD [] ++ r3.data.getD []

/-- `fetchBooksForSearch`: the three parallel sub-queries (book-field
ilike fan-out, author lookup, publisher lookup) are awaited together;
their results are the three oracle inputs here.  `firstErr` is the
JavaScript `e1 || e2 || e3`, picking the first truthy (non-null) error;
on any error the call returns that error and `data: null`, otherwise the
concatenated rows deduplicated by book id. -/
def fetchBooksForSearch (r1 r2 r3 : FetchResult) : FetchResult :=
  match r1.error.or (r2.error.or r3.error) with
  | some e => ⟨none, some e⟩
  | none => ⟨some (dedupeById (allRows r1 r2 r3)), none⟩

/-- The value kept for key `k` after folding `rows` into an id-keyed map,
threaded through an accumulator: the last row with `r.id = k`, if any,
else the accumulator.  Auxiliary specification device for the
deduplication proofs. -/
def lastByIdAux (k : Int) (rows : List Book) (acc : Option Book) : Option Book :=
  rows.foldl (fun a r => if r.id == k then some r else a) acc

/-- The `Suggestion` tagged union of the page, one constructor per facet. -/
inductive Suggestion
  | author (value display : Str) (alt : Option Str) (count : Nat)
  | title (value display : Str) (meta : Str) (bookId : Int)
  | series (value display : Str) (count : Nat)
  | publisher (value display : Str) (count : Nat)
deriving DecidableEq

/-- The facet tags of the suggestion union. -/
inductive SuggestionKind
  | author
  | title
  | series
  | publisher
deriving DecidableEq

/-- The `kind` discriminant of a suggestion. -/
def Suggestion.kind : Suggestion → SuggestionKind
  | .author _ _ _ _ => .author
  | .title _ _ _ _ => .title
  | .series _ _ _ => .series
  | .publisher _ _ _ => .publisher

/-- The four accumulation maps built by the row loop of the suggestion
effect. -/
structure AggMaps where
  authorCounts : List (Str × Nat)
  authorAlt : List (Str × Str)
  seriesCounts : List (Str × Nat)
  publisherCounts : List (Str × Nat)

/-- `set(k, (get(k) ?? 0) + 1)`: bump an occurrence counter in a map. -/
def bumpCount (m : List (Str × Nat)) (k : Str) : List (Str × Nat) :=
  mapSet m k ((mapGet m k).getD 0 + 1)

/-- One iteration of `for (const r of rows)` in the suggestion effect:
count author names, record first-seen alternate (sort) names per display
name, and count series and publisher occurrences. -/
def processRow (m : AggMaps) (r : Book) : AggMaps :=
  let ac := (getBookAuthors r).foldl bumpCount m.authorCounts
  let aa := (r.book_contributors.getD []).foldl
    (fun am c =>
      if c.role == Role.author then
        match getAuthorDisplayName c.authors,
              (match c.authors with | some a => a.sort_name | none => none) with
        | some d, some s =>
          if !d.isEmpty && !s.isEmpty && d != s && (mapGet am d).isNone then
            mapSet am d s
          else am
        | _, _ => am
      else am)
    m.authorAlt
  let sc := match r.series with
    | some s => if s.isEmpty then m.seriesCounts else bumpCount m.seriesCounts s
    | none => m.seriesCounts
  let pc := match getBookPublisher r with
    | some p => if p.isEmpty then m.publisherCounts
                else bumpCount m.publisherCounts p
    | none => m.publisherCounts
  ⟨ac, aa, sc, pc⟩

/-- The accumulation maps over the whole fetched row set. -/
def aggregate (rows : List Book) : AggMaps :=
  rows.foldl processRow ⟨[], [], [], []⟩

/-- The author suggestion block: scored map entries, zero scores
discarded, sorted descending by score then by count, top 6.  The sort key
pairs (score, count) lexicographically, matching the comparator
`b._score - a._score || (b.count ?? 0) - (a.count ?? 0)`. -/
def authorBlock (q : Str) (m : AggMaps) : List Suggestion :=
  let scored := m.authorCounts.map (fun p =>
    let name := p.1
    let count := p.2
    let alt := mapGet m.authorAlt name
    let altScore : Nat :=
      match alt with
      | some a => if a.isEmpty then 0 else scoreMatch q a
      | none => 0
    let bestScore := max (scoreMatch q name) altScore
    let display :=
      match alt with
      | some a =>
        if !a.isEmpty && decide (scoreMatch q name < scoreMatch q a) then a
        else name
      | none => name
    (Suggestion.author name display alt count, (bestScore, count)))
  ((((scored.filter (fun x => 0 < x.2.1)).insertionSort
      (byKeyGe (fun x => toLex x.2))).take 6).map Prod.fst)

/-- Decimal rendering of a publication year, `String(r.pub_year)`. -/
def intToStr (n : Int) : Str := (toString n).data

/-- The title suggestion block: each row scored as
`score(title) * 1.2 + score(firstAuthor)` in exact rational arithmetic,
zero scores discarded, sorted descending, top 8.  The metadata line joins
the author list and the publication year with a middle dot. -/
def titleBlock (q : Str) (rows : List Book) : List Suggestion :=
  let scored := rows.map (fun r =>
    let authors := getBookAuthors r
    let metaParts : List Str :=
      ((match authors with
        | [] => none
        | _ => some (List.intercalate (", ".data) authors)) ::
       [match r.pub_year with
        | some y => if y = 0 then none else some (intToStr y)
        | none => none]).filterMap
        (fun o =>
          match o with
          | some s => if s.isEmpty then none else some s
          | none => none)
    let meta := List.intercalate (" • ".data) metaParts
    let sc : ℚ :=
      (scoreMatch q r.title : ℚ) * (12 / 10) +
      (match authors.head? with
       | some a => if a.isEmpty then 0 else (scoreMatch q a : ℚ)
       | none => 0)
    (Suggestion.title r.title r.title meta r.id, sc))
  ((((scored.filter (fun x => 0 < x.2)).insertionSort
      (byKeyGe Prod.snd)).take 8).map Prod.fst)

/-- The series suggestion block: `score(series) + count / 10`, zero scores
discarded, sorted descending, top 4. -/
def seriesBlock (q : Str) (m : AggMaps) : List Suggestion :=
  let scored := m.seriesCounts.map (fun p =>
    (Suggestion.series p.1 p.1 p.2,
     ((scoreMatch q p.1 : ℚ) + (p.2 : ℚ) / 10)))
  ((((scored.filter (fun x => 0 < x.2)).insertionSort
      (byKeyGe Prod.snd)).take 4).map Prod.fst)

/-- The publisher suggestion block, identical ranking policy to series. -/
def publisherBlock (q : Str) (m : AggMaps) : List Suggestion :=
  let scored := m.publisherCounts.map (fun p =>
    (Suggestion.publisher p.1 p.1 p.2,
     ((scoreMatch q p.1 : ℚ) + (p.2 : ℚ) / 10)))
  ((((scored.filter (fun x => 0 < x.2)).insertionSort
      (byKeyGe Prod.snd)).take 4).map Prod.fst)

/-- The suggestion sequence assembled by the suggestion effect: the four
capped blocks spread in the fixed facet order authors, titles, series,
publishers. -/
def buildSuggestions (q : Str) (rows : List Book) : List Suggestion :=
  authorBlock q (aggregate rows) ++ titleBlock q rows ++
  seriesBlock q (aggregate rows) ++ publisherBlock q (aggregate rows)

/-- The list transformation of `storeRecentSearch`: trim the term; a falsy
(empty) result leaves the list untouched; otherwise prepend the term to
the list purged of other copies of it and keep the first 6 entries. -/
def storeRecentSearch (value : Str) (prev : List Str) : List Str :=
  let cleaned := trimList value
  if cleaned.isEmpty then prev
  else (cleaned :: prev.filter (fun item => item != cleaned)).take 6

/-- The render-state fields of `HomePage` touched by the book-fetch
effect and its neighbours. -/
structure ControllerState where
  books : List Book
  loading : Bool
  error : Option Str
  search : Str
  recentSearches : List Str
  randomPicks : List Book
  suggestions : List Suggestion
deriving DecidableEq

/-- Swap two positions of a list (the destructuring swap of the shuffle);
out-of-range indices leave the list unchanged. -/
def swapAt {α : Type} (l : List α) (i j : Nat) : List α :=
  match l[i]?, l[j]? with
  | some a, some b => (l.set i b).set j a
  | _, _ => l

/-- `shuffleSample`: Fisher–Yates partial shuffle followed by `slice(0,
count)`.  The `Math.random` draws are supplied by the `rand` oracle; the
index `rand i % (i + 1)` plays the role of `floor(random * (i + 1))`. -/
def shuffleSample (rows : List Book) (rand : Nat → Nat) (count : Nat) :
    List Book :=
  let idxs := ((List.range rows.length).reverse).filter (fun i => 0 < i)
  (idxs.foldl (fun copy i => swapAt copy i (rand i % (i + 1))) rows).take count

/-- The main-list ordering key, `(a.sort_title ?? a.title)`; the
locale-sensitive `localeCompare` collation is idealized as code-point
order on the key. -/
def sortTitleKey (b : Book) : Str := b.sort_title.getD b.title

/-- The error message set when the hosted-store client is not configured. -/
def missingEnvMsg : Str := "Missing Supabase env vars".data

/-- The outcome of one run of the `fetchBooks` effect body: the state it
settles into, and how many catalog gateway fetches it issued. -/
structure FetchBooksOutcome where
  state : ControllerState
  gatewayCalls : Nat
deriving DecidableEq

/-- The `fetchBooks` effect body of `HomePage`: start loading and clear
the error; bail out on a missing store client; on an empty query fetch
the unfiltered list (result supplied as the oracle `resAll`) and draw the
random picks; on a non-empty query run the search gateway (oracle
`resSearch`), and on success sort by `sort_title ?? title` and keep the
first 600 rows.  Either branch reports the error message and stops the
loading flag on a gateway error, touching nothing else and issuing no
further fetch. -/
def fetchBooksRun (trimmed : Str) (envReady : Bool)
    (resAll resSearch : FetchResult) (rand : Nat → Nat)
    (s : ControllerState) : FetchBooksOutcome :=
  let s1 := { s with loading := true, error := none }
  if !envReady then
    ⟨{ s1 with error := some missingEnvMsg, loading := false }, 0⟩
  else if trimmed.isEmpty then
    match resAll.error with
    | some e => ⟨{ s1 with error := some e, loading := false }, 1⟩
    | none =>
      let nextBooks := resAll.data.getD []
      ⟨{ s1 with books := nextBooks,
                 randomPicks := shuffleSample nextBooks rand 12,
                 loading := false }, 1⟩
  else
    match resSearch.error with
    | some e => ⟨{ s1 with error := some e, loading := false }, 1⟩
    | none =>
      let sorted := (resSearch.data.getD []).insertionSort
        (byKeyLe sortTitleKey)
      ⟨{ s1 with books := sorted.take 600, loading := false }, 1⟩

/-- A JSON value in the `question` position: a string, or anything else. -/
inductive JsVal
  | str (s : Str)
  | other
deriving DecidableEq

/-- A parsed request body: the `question` field may be absent. -/
structure ReqBody where
  question : Option JsVal
deriving DecidableEq

/-- A relay response body: `{ answer }` or `{ error }`. -/
inductive RespBody
  | ans (text : Str)
  | err (msg : Str)
deriving DecidableEq

/-- The observable outcome of one relay request: HTTP status, response
body, the `content` string passed to the completion API if it was called,
and the number of Catalog Query Gateway calls the handler issued. -/
structure PostResult where
  status : Nat
  body : RespBody
  completionInput : Option Str
  gatewayCalls : Nat
deriving DecidableEq

/-- JavaScript truthiness of a nullable string: defined and non-empty. -/
def truthyOptStr (o : Option Str) : Bool :=
  match o with
  | some s => !s.isEmpty
  | none => false

/-- `{ error: "Server misconfigured: OPENAI_API_KEY is missing." }`. -/
def misconfigMsg : Str :=
  "Server misconfigured: OPENAI_API_KEY is missing.".data

/-- `{ error: "Missing question" }`. -/
def missingQuestionMsg : Str := "Missing question".data

/-- The fallback answer for an empty completion. -/
def fallbackAnswerMsg : Str := "I couldn't generate an answer for that.".data

/-- The default upstream-error detail. -/
def openAiFailedMsg : Str := "OpenAI request failed".data

/-- The question-coercion of the handler: a failed JSON parse is caught
into an empty object (`body = none` here), and
`typeof body?.question === "string" ? body.question : ""` turns every
absent or non-string field into the empty string. -/
def questionOf (body : Option ReqBody) : Str :=
  match (body.getD ⟨none⟩).question with
  | some (.str s) => s
  | _ => []

/-- The `POST` handler of `app/api/ai-query/route.ts`.  Inputs: the
`OPENAI_API_KEY` environment value, the request body (`none` models a
JSON parse failure, which `req.json().catch(() => ({}))` turns into an
empty object), and the completion API as an oracle from the user-message
content to either the nullable `output_text` or a thrown error message.
The handler checks the credential, coerces the body to a question string
(non-string values become `""`), rejects a blank question with 400, and
otherwise calls the completion API with exactly the question as the user
content; it never queries the catalog, so `gatewayCalls` is 0 on every
path. -/
def POST (apiKey : Option Str) (body : Option ReqBody)
    (completion : Str → Except Str (Option Str)) : PostResult :=
  if !truthyOptStr apiKey then
    ⟨500, .err misconfigMsg, none, 0⟩
  else if (trimList (questionOf body)).isEmpty then
    ⟨400, .err missingQuestionMsg, none, 0⟩
  else
    match completion (questionOf body) with
    | .ok outputText =>
      ⟨200, .ans (if (trimList (outputText.getD [])).isEmpty
                  then fallbackAnswerMsg
                  else trimList (outputText.getD [])),
       some (questionOf body), 0⟩
    | .error e =>
      ⟨500, .err (if e.isEmpty then openAiFailedMsg else e),
       some (questionOf body), 0⟩

/-! ### Concrete fixtures for witnesses and counterexamples -/

/-- A book with the given id, title and contributor list, all other
fields at their empty defaults. -/
def mkBook (i : Int) (t : Str) (cs : Option (List BookContributor)) : Book :=
  ⟨i, t, none, none, none, none, none, false, none, [], none, cs⟩

/-- A book whose sole author contributor has an empty display name and a
non-null sort name: the source drops it, claim C5 as stated keeps `""`. -/
def c5Book : Book :=
  mkBook 1 "The Demolished Man".data
    (some [⟨Role.author, some 1, some ⟨some [], some "Bester, Alfred".data⟩⟩])

/-- A book whose author contributors carry credit orders [2, null, 1],
the concrete ordering example of claim C5. -/
def c5OrderBook : Book :=
  mkBook 2 "Anthology".data
    (some [⟨Role.author, some 2, some ⟨some "Order Two".data, none⟩⟩,
           ⟨Role.author, none, some ⟨some "Null Order".data, none⟩⟩,
           ⟨Role.author, some 1, some ⟨some "Order One".data, none⟩⟩])

/-- Sub-query fixture for the C2 witness: identifier 7 occurs in two of
the three row sets. -/
def c2Book7a : Book := mkBook 7 "Dune".data none

/-- Second row bearing identifier 7 (the copy that must win). -/
def c2Book7b : Book := mkBook 7 "Dune (reissue)".data none

/-- A row with a distinct identifier. -/
def c2Book8 : Book := mkBook 8 "Nova".data none

/-- First sub-query result for the C2 witness. -/
def c2r1 : FetchResult := ⟨some [c2Book7a], none⟩

/-- Second sub-query result for the C2 witness. -/
def c2r2 : FetchResult := ⟨some [c2Book7b, c2Book8], none⟩

/-- Third sub-query result for the C2 witness. -/
def c2r3 : FetchResult := ⟨some [], none⟩

/-- A controller state with a pending search, for the C8 witness. -/
def c8State : ControllerState := ⟨[], false, none, "dune".data, [], [], []⟩

/-- A concrete valid question for the relay fixtures. -/
def c1Question : Str := "Which signed books are in the catalog?".data

/-- A completion oracle that always succeeds with a fixed answer. -/
def okCompletion : Str → Except Str (Option Str) :=
  fun _ => Except.ok (some "An answer.".data)

/-- The relay outcome on a configured credential and a valid question. -/
def c1Post : PostResult :=
  POST (some "sk-test".data) (some ⟨some (JsVal.str c1Question)⟩) okCompletion

/-! ## Helper lemmas -/

/-- Lookup on a nonempty association list: the head entry answers when its
key matches, otherwise the tail does. -/
theorem mapGet_cons {κ β : Type} [DecidableEq κ] (p : κ × β)
    (m : List (κ × β)) (k : κ) :
    mapGet (p :: m) k = if p.1 = k then some p.2 else mapGet m k := by
  unfold mapGet
  by_cases h : p.1 = k
  · rw [List.find?_cons_of_pos _ (by simpa using h), if_pos h]
    rfl
  · rw [List.find?_cons_of_neg _ (by simpa using h), if_neg h]

/-- Updating in place the entries keyed `k` leaves a lookup for `k` with
`some v` exactly when the key was present. -/
theorem mapGet_upd_self {κ β : Type} [DecidableEq κ] (m : List (κ × β))
    (k : κ) (v : β) :
    mapGet (m.map (fun p => if p.1 == k then (k, v) else p)) k =
      if m.any (fun p => p.1 == k) then some v else none := by
  induction m with
  | nil => rfl
  | cons p m ih =>
    rw [List.map_cons, List.any_cons]
    by_cases h : p.1 = k
    · rw [if_pos (by simpa using h), mapGet_cons, if_pos rfl,
        (by simpa using h : (p.1 == k) = true), Bool.true_or]
      simp
    · rw [if_neg (by simpa using h), mapGet_cons, if_neg h, ih,
        (by simpa using h : (p.1 == k) = false), Bool.false_or]

/-- Updating in place the entries keyed `k` does not change lookups for
other keys. -/
theorem mapGet_upd_ne {κ β : Type} [DecidableEq κ] (m : List (κ × β))
    (k k' : κ) (v : β) (hne : k' ≠ k) :
    mapGet (m.map (fun p => if p.1 == k then (k, v) else p)) k' =
      mapGet m k' := by
  induction m with
  | nil => rfl
  | cons p m ih =>
    rw [List.map_cons]
    by_cases h : p.1 = k
    · have hp' : p.1 ≠ k' := by
        rw [h]
        exact Ne.symm hne
      rw [if_pos (by simpa using h), mapGet_cons, mapGet_cons,
        if_neg (show (k, v).1 ≠ k' from Ne.symm hne), if_neg hp', ih]
    · rw [if_neg (by simpa using h), mapGet_cons, mapGet_cons]
      by_cases h' : p.1 = k'
      · rw [if_pos h', if_pos h']
      · rw [if_neg h', if_neg h', ih]

/-- Appending a fresh entry behaves as a point update of the lookup. -/
theorem mapGet_append_single {κ β : Type} [DecidableEq κ]
    (m : List (κ × β)) (k k' : κ) (v : β)
    (hk : m.any (fun p => p.1 == k) = false) :
    mapGet (m ++ [(k, v)]) k' = if k' = k then some v else mapGet m k' := by
  induction m with
  | nil =>
    rw [List.nil_append, mapGet_cons]
    by_cases h : k' = k
    · rw [if_pos h.symm, if_pos h]
    · rw [if_neg (Ne.symm h), if_neg h]
  | cons p m ih =>
    rw [List.any_cons, Bool.or_eq_false_iff] at hk
    have hpk : p.1 ≠ k := by simpa using hk.1
    rw [List.cons_append, mapGet_cons, ih hk.2, mapGet_cons]
    by_cases h1 : k' = k
    · have hpk' : p.1 ≠ k' := by
        rw [h1]
        exact hpk
      rw [if_neg hpk', if_pos h1, if_pos h1]
    · by_cases h2 : p.1 = k'
      · rw [if_pos h2, if_neg h1, if_pos h2]
      · rw [if_neg h2, if_neg h1, if_neg h2, if_neg h1]

/-- Lookup after a `Map.set`: the set key now maps to the new value and
every other key is untouched. -/
theorem mapGet_mapSet {κ β : Type} [DecidableEq κ] (m : List (κ × β))
    (k k' : κ) (v : β) :
    mapGet (mapSet m k v) k' = if k' = k then some v else mapGet m k' := by
  unfold mapSet
  by_cases hk : m.any (fun p => p.1 == k) = true
  · rw [if_pos hk]
    by_cases h : k' = k
    · subst h
      rw [mapGet_upd_self, if_pos hk, if_pos rfl]
    · rw [mapGet_upd_ne _ _ _ _ h, if_neg h]
  · rw [if_neg hk, mapGet_append_single _ _ _ _
      (by simp only [Bool.not_eq_true] at hk; exact hk)]

/-- Every entry of `mapSet m k v` is the new entry or one of `m`. -/
theorem mem_mapSet {κ β : Type} [DecidableEq κ] {m : List (κ × β)} {k : κ}
    {v : β} {p : κ × β} (hp : p ∈ mapSet m k v) : p = (k, v) ∨ p ∈ m := by
  unfold mapSet at hp
  by_cases hk : m.any (fun q => q.1 == k) = true
  · rw [if_pos hk] at hp
    obtain ⟨q, hq, hpq⟩ := List.mem_map.mp hp
    by_cases h : q.1 = k
    · left
      rw [← hpq, if_pos (by simpa using h)]
    · right
      rw [← hpq, if_neg (by simpa using h)]
      exact hq
  · rw [if_neg hk] at hp
    rcases List.mem_append.mp hp with h | h
    · exact Or.inr h
    · exact Or.inl (by simpa using h)

/-- The in-place update of `mapSet` keeps the key list unchanged. -/
theorem map_fst_upd {κ β : Type} [DecidableEq κ] (m : List (κ × β))
    (k : κ) (v : β) :
    (m.map (fun p => if p.1 == k then (k, v) else p)).map Prod.fst =
      m.map Prod.fst := by
  rw [List.map_map]
  refine List.map_congr_left ?_
  intro p _
  by_cases h : p.1 = k <;> simp [h]

/-- `mapSet` preserves distinctness of the key list. -/
theorem nodup_keys_mapSet {κ β : Type} [DecidableEq κ] {m : List (κ × β)}
    (k : κ) (v : β) (h : (m.map Prod.fst).Nodup) :
    ((mapSet m k v).map Prod.fst).Nodup := by
  unfold mapSet
  by_cases hk : m.any (fun p => p.1 == k) = true
  · rw [if_pos hk, map_fst_upd]
    exact h
  · rw [if_neg hk, List.map_append]
    rw [List.nodup_append]
    refine ⟨h, by simp, ?_⟩
    intro a ha hb
    have hak : a = k := by simpa using hb
    obtain ⟨p, hp, hpa⟩ := List.mem_map.mp ha
    exact hk (List.any_eq_true.mpr ⟨p, hp, by simp [hpa, hak]⟩)

/-- Every value stored by the dedup fold is stored under its own id. -/
theorem dedupe_fold_pairs (rows : List Book) (m : List (Int × Book))
    (hm : ∀ p ∈ m, p.2.id = p.1) :
    ∀ p ∈ rows.foldl (fun m r => mapSet m r.id r) m, p.2.id = p.1 := by
  induction rows generalizing m with
  | nil => exact hm
  | cons r rows ih =>
    intro p hp
    rw [List.foldl_cons] at hp
    refine ih _ ?_ p hp
    intro q hq
    rcases mem_mapSet hq with h | h
    · rw [h]
    · exact hm q h

/-- Every value stored by the dedup fold came from the accumulator or from
one of the folded rows. -/
theorem dedupe_fold_mem (rows : List Book) (m : List (Int × Book)) :
    ∀ p ∈ rows.foldl (fun m r => mapSet m r.id r) m, p ∈ m ∨ p.2 ∈ rows := by
  induction rows generalizing m with
  | nil =>
    intro p hp
    exact Or.inl hp
  | cons r rows ih =>
    intro p hp
    rw [List.foldl_cons] at hp
    rcases ih _ p hp with h | h
    · rcases mem_mapSet h with h' | h'
      · exact Or.inr (by simp [h'])
      · exact Or.inl h'
    · exact Or.inr (List.mem_cons_of_mem _ h)

/-- The dedup fold keeps the key list duplicate-free. -/
theorem dedupe_fold_nodup (rows : List Book) (m : List (Int × Book))
    (hm : (m.map Prod.fst).Nodup) :
    (((rows.foldl (fun m r => mapSet m r.id r) m)).map Prod.fst).Nodup := by
  induction rows generalizing m with
  | nil => exact hm
  | cons r rows ih =>
    rw [List.foldl_cons]
    exact ih _ (nodup_keys_mapSet _ _ hm)

/-- Lookup through the dedup fold is the last-row-with-that-id semantics,
threaded from the accumulator's lookup. -/
theorem dedupe_fold_get (rows : List Book) (m : List (Int × Book)) (k : Int) :
    mapGet (rows.foldl (fun m r => mapSet m r.id r) m) k =
      lastByIdAux k rows (mapGet m k) := by
  induction rows generalizing m with
  | nil => rfl
  | cons r rows ih =>
    rw [List.foldl_cons, ih, mapGet_mapSet]
    unfold lastByIdAux
    rw [List.foldl_cons]
    by_cases h : r.id = k
    · rw [if_pos h.symm, if_pos (by simpa using h)]
    · rw [if_neg (Ne.symm h), if_neg (by simpa using h)]

/-- The accumulator-threaded last-with-id function is a `find?` over the
reversed row list. -/
theorem lastByIdAux_or (k : Int) (rows : List Book) (acc : Option Book) :
    lastByIdAux k rows acc =
      (rows.reverse.find? (fun x => x.id == k)).or acc := by
  induction rows generalizing acc with
  | nil => rfl
  | cons r rows ih =>
    unfold lastByIdAux
    rw [List.foldl_cons]
    have hl := ih (if (r.id == k) = true then some r else acc)
    unfold lastByIdAux at hl
    rw [hl, List.reverse_cons, List.find?_append, Option.or_assoc]
    by_cases h : r.id = k
    · have hfr : List.find? (fun x => x.id == k) [r] = some r :=
        List.find?_cons_of_pos _ (by simpa using h)
      rw [if_pos (by simpa using h), hfr]
      rfl
    · have hfr : List.find? (fun x => x.id == k) [r] = none := by
        rw [List.find?_cons_of_neg _ (by simpa using h)]
        rfl
      rw [if_neg (by simpa using h), hfr]
      rfl

/-- If no folded row has the id, the accumulator survives. -/
theorem lastByIdAux_of_absent (k : Int) (rows : List Book) (acc : Option Book)
    (h : ∀ r ∈ rows, r.id ≠ k) : lastByIdAux k rows acc = acc := by
  induction rows generalizing acc with
  | nil => rfl
  | cons r rows ih =>
    rw [lastByIdAux, List.foldl_cons, ← lastByIdAux,
      if_neg (by simpa using h r (by simp)), ih]
    intro r' hr'
    exact h r' (List.mem_cons_of_mem _ hr')

/-- If some folded row has the id, the result is one of those rows. -/
theorem lastByIdAux_isSome (k : Int) (rows : List Book) (acc : Option Book)
    (h : ∃ r ∈ rows, r.id = k) :
    ∃ b, lastByIdAux k rows acc = some b ∧ b ∈ rows ∧ b.id = k := by
  induction rows generalizing acc with
  | nil => simp at h
  | cons r rows ih =>
    rw [lastByIdAux, List.foldl_cons, ← lastByIdAux]
    by_cases hr : ∃ r' ∈ rows, r'.id = k
    · obtain ⟨b, hb1, hb2, hb3⟩ := ih _ hr
      exact ⟨b, hb1, List.mem_cons_of_mem _ hb2, hb3⟩
    · have hrk : r.id = k := by
        rcases h with ⟨r', hr', hid⟩
        rcases List.mem_cons.mp hr' with h' | h'
        · rw [← h']
          exact hid
        · exact absurd ⟨r', h', hid⟩ hr
      push_neg at hr
      rw [if_pos (by simpa using hrk),
        lastByIdAux_of_absent _ _ _ (fun r' h' => hr r' h')]
      exact ⟨r, rfl, by simp, hrk⟩

/-- With duplicate-free keys, a stored entry is what lookup returns. -/
theorem mapGet_of_mem_nodup {κ β : Type} [DecidableEq κ]
    {m : List (κ × β)} (h : (m.map Prod.fst).Nodup) {p : κ × β}
    (hp : p ∈ m) : mapGet m p.1 = some p.2 := by
  induction m with
  | nil => simp at hp
  | cons q m ih =>
    rw [List.map_cons, List.nodup_cons] at h
    rcases List.mem_cons.mp hp with h' | h'
    · subst h'
      rw [mapGet_cons, if_pos rfl]
    · have hne : q.1 ≠ p.1 := by
        intro hq
        exact h.1 (hq ▸ List.mem_map.mpr ⟨p, h', rfl⟩)
      rw [mapGet_cons, if_neg hne]
      exact ih h.2 h'

/-- A list whose image under `f` is duplicate-free has at most one element
mapping to any given value. -/
theorem filter_length_le_one_of_nodup_map {α β : Type} [DecidableEq β]
    (l : List α) (f : α → β) (i : β) (h : (l.map f).Nodup) :
    (l.filter (fun x => f x == i)).length ≤ 1 := by
  induction l with
  | nil => simp
  | cons x l ih =>
    rw [List.map_cons, List.nodup_cons] at h
    rw [List.filter_cons]
    by_cases hx : f x = i
    · rw [if_pos (by simpa using hx)]
      have : l.filter (fun y => f y == i) = [] := by
        rw [List.filter_eq_nil_iff]
        intro a ha hai
        exact h.1 (by
          refine List.mem_map.mpr ⟨a, ha, ?_⟩
          rw [hx, ← (by simpa using hai : f a = i)])
      rw [this]
      simp
    · rw [if_neg (by simpa using hx)]
      exact ih h.2

/-- Every component produced by the split functions is an infix of the
input (stated with a fuel bound to handle the mutual recursion). -/
theorem splitWs_sound (n : Nat) :
    (∀ l acc, l.length ≤ n → ∀ w ∈ splitWsAux l acc,
      w <:+: (acc.reverse ++ l)) ∧
    (∀ l, l.length ≤ n → ∀ w ∈ splitWsSkip l, w <:+: l) := by
  induction n with
  | zero =>
    constructor
    · intro l acc hl w hw
      have hnil : l = [] := List.length_eq_zero.mp (Nat.le_zero.mp hl)
      subst hnil
      simp only [splitWsAux, List.mem_singleton] at hw
      subst hw
      simp
    · intro l hl w hw
      have hnil : l = [] := List.length_eq_zero.mp (Nat.le_zero.mp hl)
      subst hnil
      simp only [splitWsSkip, List.mem_singleton] at hw
      subst hw
      exact List.nil_infix
  | succ n ih =>
    constructor
    · intro l acc hl w hw
      cases l with
      | nil =>
        simp only [splitWsAux, List.mem_singleton] at hw
        subst hw
        simp
      | cons c t =>
        have hlt : t.length ≤ n := by
          simpa using hl
        simp only [splitWsAux] at hw
        by_cases hc : isJsWhitespace c = true
        · rw [if_pos hc] at hw
          rcases List.mem_cons.mp hw with h | h
          · subst h
            exact (List.prefix_append acc.reverse (c :: t)).isInfix
          · have hwt := (ih).2 t hlt w h
            refine hwt.trans ?_
            exact ((List.suffix_cons c t).trans ⟨acc.reverse, rfl⟩).isInfix
        · rw [if_neg hc] at hw
          have hrec := (ih).1 t (c :: acc) hlt w hw
          rw [List.reverse_cons, List.append_assoc] at hrec
          exact hrec
    · intro l hl w hw
      cases l with
      | nil =>
        simp only [splitWsSkip, List.mem_singleton] at hw
        subst hw
        exact List.nil_infix
      | cons c t =>
        have hlt : t.length ≤ n := by
          simpa using hl
        simp only [splitWsSkip] at hw
        by_cases hc : isJsWhitespace c = true
        · rw [if_pos hc] at hw
          exact ((ih).2 t hlt w hw).trans (List.suffix_cons c t).isInfix
        · rw [if_neg hc] at hw
          have hrec := (ih).1 t [c] hlt w hw
          simpa using hrec

/-- Every component of `splitWs l` is an infix of `l`. -/
theorem splitWs_occurs (l w : Str) (hw : w ∈ splitWs l) : w <:+: l := by
  have h := (splitWs_sound l.length).1 l [] le_rfl w hw
  simpa using h

/-- A query that is a prefix of some whitespace-delimited word of `c`
occurs in `c`. -/
theorem word_prefix_occurs {q c : Str} (h : ∃ w ∈ splitWs c, q <+: w) :
    q <:+: c := by
  obtain ⟨w, hw, hp⟩ := h
  exact hp.isInfix.trans (splitWs_occurs c w hw)

/-! ## Claim theorems -/

/-- Claim C2: for all sub-query outcomes, the combined search
`fetchBooksForSearch` fails with the first error whenever any of its three
parallel sub-queries fails (returning no partial data), and on success
returns the concatenated rows deduplicated by book identifier: the
identifiers are pairwise distinct, every returned row is one of the
fetched rows, every identifier occurring in the concatenation occurs
exactly once in the result, and the row kept for an identifier is the
last row bearing it in the concatenation (last-write-wins). -/
theorem C2_fetchBooksForSearch_spec (r1 r2 r3 : FetchResult) :
    (∀ e, r1.error.or (r2.error.or r3.error) = some e →
      fetchBooksForSearch r1 r2 r3 = ⟨none, some e⟩) ∧
    (r1.error = none → r2.error = none → r3.error = none →
      ∃ rows, fetchBooksForSearch r1 r2 r3 = ⟨some rows, none⟩ ∧
        rows = dedupeById (allRows r1 r2 r3) ∧
        (rows.map Book.id).Nodup ∧
        (∀ b ∈ rows, b ∈ allRows r1 r2 r3) ∧
        (∀ i, (∃ b ∈ allRows r1 r2 r3, b.id = i) →
          (rows.filter (fun b => b.id == i)).length = 1) ∧
        (∀ b ∈ rows,
          (allRows r1 r2 r3).reverse.find? (fun x => x.id == b.id) =
            some b)) := by
  constructor
  · intro e he
    unfold fetchBooksForSearch
    rw [he]
  · intro h1 h2 h3
    have hor : r1.error.or (r2.error.or r3.error) = none := by
      rw [h1, h2, h3]
      rfl
    have hpairs := dedupe_fold_pairs (allRows r1 r2 r3) [] (by simp)
    have hkeys := dedupe_fold_nodup (allRows r1 r2 r3) [] (by simp)
    have hids : (dedupeById (allRows r1 r2 r3)).map Book.id =
        ((allRows r1 r2 r3).foldl (fun m r => mapSet m r.id r) []).map
          Prod.fst := by
      unfold dedupeById
      rw [List.map_map]
      exact List.map_congr_left (fun p hp => hpairs p hp)
    have hmem : ∀ b ∈ dedupeById (allRows r1 r2 r3),
        b ∈ allRows r1 r2 r3 := by
      intro b hb
      obtain ⟨p, hp, hpb⟩ := List.mem_map.mp hb
      rcases dedupe_fold_mem (allRows r1 r2 r3) [] p hp with h | h
      · simp at h
      · rw [← hpb]
        exact h
    have hlast : ∀ b ∈ dedupeById (allRows r1 r2 r3),
        (allRows r1 r2 r3).reverse.find? (fun x => x.id == b.id) = some b := by
      intro b hb
      obtain ⟨p, hp, hpb⟩ := List.mem_map.mp hb
      have hid : p.1 = b.id := by
        rw [← hpb]
        exact (hpairs p hp).symm
      have hget := mapGet_of_mem_nodup hkeys hp
      rw [dedupe_fold_get, hid] at hget
      have : mapGet ([] : List (Int × Book)) b.id = none := rfl
      rw [this, lastByIdAux_or, Option.or_none] at hget
      rw [hget, hpb]
    refine ⟨dedupeById (allRows r1 r2 r3),
      by unfold fetchBooksForSearch; rw [hor], rfl,
      by rw [hids]; exact hkeys, hmem, ?_, hlast⟩
    intro i hi
    obtain ⟨b0, hb0some, hb0mem, hb0id⟩ :=
      lastByIdAux_isSome i (allRows r1 r2 r3) none hi
    have hget : mapGet
        ((allRows r1 r2 r3).foldl (fun m r => mapSet m r.id r) []) i =
        some b0 := by
      rw [dedupe_fold_get]
      exact hb0some
    obtain ⟨q, hq, hq2⟩ := Option.map_eq_some'.mp hget
    have hqmem := List.mem_of_find?_eq_some hq
    have hb0dedupe : b0 ∈ dedupeById (allRows r1 r2 r3) := by
      unfold dedupeById
      exact List.mem_map.mpr ⟨q, hqmem, hq2⟩
    have hle : ((dedupeById (allRows r1 r2 r3)).filter
        (fun b => b.id == i)).length ≤ 1 := by
      apply filter_length_le_one_of_nodup_map
      rw [hids]
      exact hkeys
    have hge : 1 ≤ ((dedupeById (allRows r1 r2 r3)).filter
        (fun b => b.id == i)).length := by
      have : b0 ∈ (dedupeById (allRows r1 r2 r3)).filter
          (fun b => b.id == i) :=
        List.mem_filter.mpr ⟨hb0dedupe, by simpa using hb0id⟩
      exact List.length_pos.mpr (List.ne_nil_of_mem this)
    omega

/-- Witness for C2: three error-free sub-queries, two of whose row sets
contain identifier 7, instantiate the success branch of the theorem at a
concrete input (the hypotheses discharge by computation). -/
theorem C2_witness :
    ∃ rows, fetchBooksForSearch c2r1 c2r2 c2r3 = ⟨some rows, none⟩ ∧
      rows = dedupeById (allRows c2r1 c2r2 c2r3) ∧
      (rows.map Book.id).Nodup ∧
      (∀ b ∈ rows, b ∈ allRows c2r1 c2r2 c2r3) ∧
      (∀ i, (∃ b ∈ allRows c2r1 c2r2 c2r3, b.id = i) →
        (rows.filter (fun b => b.id == i)).length = 1) ∧
      (∀ b ∈ rows,
        (allRows c2r1 c2r2 c2r3).reverse.find? (fun x => x.id == b.id) =
          some b) :=
  (C2_fetchBooksForSearch_spec c2r1 c2r2 c2r3).2 rfl rfl rfl

/-- Claim C3: `scoreMatch` is a pure function into {0, 45, 65, 80, 100}
⊆ [0, 100], scoring 0 exactly when the normalized query is empty or does
not occur in the normalized candidate, 100 exactly on post-normalization
equality, 80 exactly when the candidate properly starts with the query,
65 exactly when the query otherwise starts some whitespace-delimited word
of the candidate, and 45 exactly when it is otherwise a substring. -/
theorem C3_scoreMatch_spec (query candidate : Str) :
    scoreMatch query candidate ∈ ([0, 45, 65, 80, 100] : List Nat) ∧
    scoreMatch query candidate ≤ 100 ∧
    (scoreMatch query candidate = 0 ↔
      (normalize query = [] ∨
       ¬ normalize query <:+: normalize candidate)) ∧
    (normalize query ≠ [] →
      ((scoreMatch query candidate = 100 ↔
          normalize candidate = normalize query) ∧
       (scoreMatch query candidate = 80 ↔
          (normalize query <+: normalize candidate ∧
           normalize candidate ≠ normalize query)) ∧
       (scoreMatch query candidate = 65 ↔
          (¬ normalize query <+: normalize candidate ∧
           ∃ w ∈ splitWs (normalize candidate), normalize query <+: w)) ∧
       (scoreMatch query candidate = 45 ↔
          (¬ normalize query <+: normalize candidate ∧
           ¬ (∃ w ∈ splitWs (normalize candidate), normalize query <+: w) ∧
           normalize query <:+: normalize candidate)))) := by
  unfold scoreMatch
  split_ifs with h1 h2 h3 h4 h5
  · exact ⟨by simp, by norm_num, by simp [h1], fun h => absurd h1 h⟩
  · have hinf : normalize query <:+: normalize candidate := by
      rw [h2]
    have hpre : normalize query <+: normalize candidate := by
      rw [h2]
    refine ⟨by simp, by norm_num, ?_, ?_⟩
    · refine iff_of_false (by norm_num) ?_
      rintro (h | h)
      · exact h1 h
      · exact h hinf
    · intro _
      refine ⟨iff_of_true rfl h2, ?_, ?_, ?_⟩
      · exact iff_of_false (by norm_num) (fun h => h.2 h2)
      · exact iff_of_false (by norm_num) (fun h => h.1 hpre)
      · exact iff_of_false (by norm_num) (fun h => h.1 hpre)
  · refine ⟨by simp, by norm_num, ?_, ?_⟩
    · refine iff_of_false (by norm_num) ?_
      rintro (h | h)
      · exact h1 h
      · exact h h3.isInfix
    · intro _
      refine ⟨iff_of_false (by norm_num) (fun h => h2 h), ?_, ?_, ?_⟩
      · exact iff_of_true rfl ⟨h3, h2⟩
      · exact iff_of_false (by norm_num) (fun h => h.1 h3)
      · exact iff_of_false (by norm_num) (fun h => h.1 h3)
  · refine ⟨by simp, by norm_num, ?_, ?_⟩
    · refine iff_of_false (by norm_num) ?_
      rintro (h | h)
      · exact h1 h
      · exact h (word_prefix_occurs h4)
    · intro _
      refine ⟨iff_of_false (by norm_num) (fun h => h2 h), ?_, ?_, ?_⟩
      · exact iff_of_false (by norm_num) (fun h => h3 h.1)
      · exact iff_of_true rfl ⟨h3, h4⟩
      · exact iff_of_false (by norm_num) (fun h => h.2.1 h4)
  · refine ⟨by simp, by norm_num, ?_, ?_⟩
    · refine iff_of_false (by norm_num) ?_
      rintro (h | h)
      · exact h1 h
      · exact h h5
    · intro _
      refine ⟨iff_of_false (by norm_num) (fun h => h2 h), ?_, ?_, ?_⟩
      · exact iff_of_false (by norm_num) (fun h => h3 h.1)
      · exact iff_of_false (by norm_num) (fun h => h4 h.2)
      · exact iff_of_true rfl ⟨h3, h4, h5⟩
  · refine ⟨by simp, by norm_num, iff_of_true rfl (Or.inr h5), ?_⟩
    intro _
    refine ⟨iff_of_false (by norm_num) (fun h => h2 h), ?_, ?_, ?_⟩
    · exact iff_of_false (by norm_num) (fun h => h3 h.1)
    · exact iff_of_false (by norm_num) (fun h => h4 h.2)
    · exact iff_of_false (by norm_num) (fun h => h5 h.2.2)

/-- Witness for C3 at a concrete input: "asi" scores 65 against
"Isaac Asimov" because, after normalization, it is not a prefix of the
whole candidate but starts its second word; the internal non-empty-query
hypothesis is discharged by computation. -/
theorem C3_witness :
    scoreMatch "asi".data "Isaac Asimov".data = 65 ↔
      (¬ normalize "asi".data <+: normalize "Isaac Asimov".data ∧
       ∃ w ∈ splitWs (normalize "Isaac Asimov".data),
         normalize "asi".data <+: w) :=
  ((C3_scoreMatch_spec "asi".data "Isaac Asimov".data).2.2.2
    (by decide)).2.2.1

/-- Counterexample to claim C4 as stated: at the concrete input `""`
(which normalizes to the empty string) the scorer returns 0, not 100. -/
theorem C4_counterexample :
    scoreMatch ([] : Str) ([] : Str) = 0 ∧
    scoreMatch ([] : Str) ([] : Str) ≠ 100 := by
  constructor
  · decide
  · decide

/-- Claim C4 as amended: `scoreMatch(q, q) = 100` for every string whose
normalization is non-empty (the source returns 0 when the normalized
query is empty, including on `q` itself). -/
theorem C4_amended_reflexivity (q : Str) (h : normalize q ≠ []) :
    scoreMatch q q = 100 := by
  unfold scoreMatch
  rw [if_neg h, if_pos rfl]

/-- Witness for C4 (amended) at the concrete input "Asimov". -/
theorem C4_witness :
    normalize "Asimov".data ≠ [] ∧ scoreMatch "Asimov".data "Asimov".data = 100 :=
  ⟨by decide, C4_amended_reflexivity "Asimov".data (by decide)⟩

/-- Counterexample to claim C5 as stated: on a book whose only author
contributor has display name `""` and sort name "Bester, Alfred", the
source returns no names (the `!!name` filter drops the empty string),
while the claim as stated — drop only when both names are absent — keeps
the empty display name. -/
theorem C5_counterexample :
    getBookAuthors c5Book = [] ∧
    getBookAuthorsClaimed c5Book = [([] : Str)] ∧
    getBookAuthors c5Book ≠ getBookAuthorsClaimed c5Book :=
  ⟨by decide, by decide, by decide⟩

/-- Claim C5 as amended: `getBookAuthors` returns exactly the names of the
role-`author` contributors, arranged by a permutation of that contributor
list sorted ascending on credit order with nulls keyed to
`Number.MAX_SAFE_INTEGER` (hence last), each name being the display name
when present else the sort name, with contributors dropped when the
selected name is absent **or empty**. -/
theorem C5_amended_getBookAuthors (book : Book) :
    ∃ l : List BookContributor,
      l.Perm (authorContribs book) ∧
      List.Sorted creditLe l ∧
      getBookAuthors book =
        l.filterMap (fun c =>
          match getAuthorDisplayName c.authors with
          | some n => if n.isEmpty then none else some n
          | none => none) := by
  refine ⟨sortedAuthorContribs book, List.perm_insertionSort _ _,
    List.sorted_insertionSort _ _, ?_⟩
  unfold getBookAuthors
  rw [List.filterMap_map]
  rfl

/-- Witness for C5 (amended): the claim's concrete example, credit orders
[2, null, 1], yields the names in order [order-1, order-2, null-order];
the general theorem is instantiated at the same book. -/
theorem C5_witness :
    getBookAuthors c5OrderBook =
      ["Order One".data, "Order Two".data, "Null Order".data] ∧
    (∃ l : List BookContributor,
      l.Perm (authorContribs c5OrderBook) ∧
      List.Sorted creditLe l ∧
      getBookAuthors c5OrderBook =
        l.filterMap (fun c =>
          match getAuthorDisplayName c.authors with
          | some n => if n.isEmpty then none else some n
          | none => none)) :=
  ⟨by decide, C5_amended_getBookAuthors c5OrderBook⟩

/-- Claim C6: for every query and candidate row set, the suggestion
sequence is the concatenation, in the fixed facet order authors, titles,
series, publishers, of four blocks of at most 6, 8, 4 and 4 entries
respectively, each block homogeneous in its facet. -/
theorem C6_suggestion_blocks (q : Str) (rows : List Book) :
    ∃ A T S P,
      buildSuggestions q rows = A ++ T ++ S ++ P ∧
      A.length ≤ 6 ∧ T.length ≤ 8 ∧ S.length ≤ 4 ∧ P.length ≤ 4 ∧
      (∀ s ∈ A, s.kind = SuggestionKind.author) ∧
      (∀ s ∈ T, s.kind = SuggestionKind.title) ∧
      (∀ s ∈ S, s.kind = SuggestionKind.series) ∧
      (∀ s ∈ P, s.kind = SuggestionKind.publisher) := by
  refine ⟨authorBlock q (aggregate rows), titleBlock q rows,
    seriesBlock q (aggregate rows), publisherBlock q (aggregate rows),
    rfl, ?_, ?_, ?_, ?_, ?_, ?_, ?_, ?_⟩
  · simp only [authorBlock, List.length_map, List.length_take]
    exact min_le_left _ _
  · simp only [titleBlock, List.length_map, List.length_take]
    exact min_le_left _ _
  · simp only [seriesBlock, List.length_map, List.length_take]
    exact min_le_left _ _
  · simp only [publisherBlock, List.length_map, List.length_take]
    exact min_le_left _ _
  · intro s hs
    simp only [authorBlock] at hs
    obtain ⟨x, hx, rfl⟩ := List.mem_map.mp hs
    have hx1 := List.mem_of_mem_take hx
    rw [List.mem_insertionSort] at hx1
    obtain ⟨p, _, rfl⟩ := List.mem_map.mp (List.mem_filter.mp hx1).1
    rfl
  · intro s hs
    simp only [titleBlock] at hs
    obtain ⟨x, hx, rfl⟩ := List.mem_map.mp hs
    have hx1 := List.mem_of_mem_take hx
    rw [List.mem_insertionSort] at hx1
    obtain ⟨p, _, rfl⟩ := List.mem_map.mp (List.mem_filter.mp hx1).1
    rfl
  · intro s hs
    simp only [seriesBlock] at hs
    obtain ⟨x, hx, rfl⟩ := List.mem_map.mp hs
    have hx1 := List.mem_of_mem_take hx
    rw [List.mem_insertionSort] at hx1
    obtain ⟨p, _, rfl⟩ := List.mem_map.mp (List.mem_filter.mp hx1).1
    rfl
  · intro s hs
    simp only [publisherBlock] at hs
    obtain ⟨x, hx, rfl⟩ := List.mem_map.mp hs
    have hx1 := List.mem_of_mem_take hx
    rw [List.mem_insertionSort] at hx1
    obtain ⟨p, _, rfl⟩ := List.mem_map.mp (List.mem_filter.mp hx1).1
    rfl

/-- Claim C7: a whitespace-only term leaves the recent-search list
unchanged; an accepted term yields a list of length at most 6 whose head
is the trimmed term and which contains exactly that one occurrence of
it. -/
theorem C7_storeRecentSearch_spec (value : Str) (prev : List Str) :
    (trimList value = [] → storeRecentSearch value prev = prev) ∧
    (trimList value ≠ [] →
      (storeRecentSearch value prev).length ≤ 6 ∧
      (storeRecentSearch value prev).head? = some (trimList value) ∧
      (storeRecentSearch value prev).count (trimList value) = 1) := by
  constructor
  · intro h
    simp only [storeRecentSearch]
    rw [if_pos (by simp [h])]
  · intro h
    have hne : (trimList value).isEmpty = false := by
      cases htv : trimList value with
      | nil => exact absurd htv h
      | cons a t => rfl
    simp only [storeRecentSearch]
    rw [if_neg (by simp [hne])]
    refine ⟨?_, ?_, ?_⟩
    · rw [List.length_take]
      exact min_le_left _ _
    · rw [List.take_cons (by norm_num)]
      rfl
    · rw [List.take_cons (by norm_num), List.count_cons_self]
      have hz : (List.take (6 - 1) (prev.filter
          (fun item => item != trimList value))).count (trimList value)
          = 0 := by
        rw [List.count_eq_zero]
        intro hc
        have hm := List.mem_of_mem_take hc
        have hb := (List.mem_filter.mp hm).2
        rw [bne_iff_ne] at hb
        exact hb rfl
      rw [hz]

/-- Witness for C7: storing "dune " (trailing space) on a list already
containing "dune" keeps the bound, puts the trimmed term first and leaves
exactly one occurrence. -/
theorem C7_witness :
    (storeRecentSearch "dune ".data ["vance".data, "dune".data]).length ≤ 6 ∧
    (storeRecentSearch "dune ".data ["vance".data, "dune".data]).head? =
      some (trimList "dune ".data) ∧
    (storeRecentSearch "dune ".data ["vance".data, "dune".data]).count
      (trimList "dune ".data) = 1 :=
  (C7_storeRecentSearch_spec "dune ".data ["vance".data, "dune".data]).2
    (by decide)

/-- Claim C8: when the search-branch catalog fetch resolves with a gateway
error, the settled controller state is the prior state with only the
error message set and the loading flag cleared — books, random picks,
recent searches, search text and suggestions unchanged — and the effect
issued exactly one gateway call (no retry). -/
theorem C8_fetchBooks_error_frame (trimmed : Str)
    (resAll resSearch : FetchResult) (rand : Nat → Nat)
    (s : ControllerState) (e : Str) (hq : trimmed ≠ [])
    (he : resSearch.error = some e) :
    fetchBooksRun trimmed true resAll resSearch rand s =
      ⟨{ s with error := some e, loading := false }, 1⟩ := by
  have hne : trimmed.isEmpty = false := by
    cases trimmed with
    | nil => exact absurd rfl hq
    | cons a t => rfl
  unfold fetchBooksRun
  rw [hne, he]
  rfl

/-- Witness for C8 at a concrete failing search. -/
theorem C8_witness :
    fetchBooksRun "dune".data true ⟨some [], none⟩
        ⟨none, some "network down".data⟩ (fun _ => 0) c8State =
      ⟨{ c8State with error := some "network down".data, loading := false },
       1⟩ :=
  C8_fetchBooks_error_frame "dune".data ⟨some [], none⟩
    ⟨none, some "network down".data⟩ (fun _ => 0) c8State
    "network down".data (by decide) rfl

/-- Claim C9: with the completion credential not truthy (unset or empty),
every request — whatever its body — receives HTTP 500 with the
server-misconfiguration body, and the completion API is not called. -/
theorem C9_credential_precedes_validation (apiKey : Option Str)
    (body : Option ReqBody) (completion : Str → Except Str (Option Str))
    (h : truthyOptStr apiKey = false) :
    POST apiKey body completion =
      ⟨500, RespBody.err misconfigMsg, none, 0⟩ := by
  unfold POST
  rw [h]
  rfl

/-- Witness for C9: an unset key with a non-string question still yields
the 500 misconfiguration response and no completion call. -/
theorem C9_witness :
    POST none (some ⟨some JsVal.other⟩) okCompletion =
      ⟨500, RespBody.err misconfigMsg, none, 0⟩ :=
  C9_credential_precedes_validation none (some ⟨some JsVal.other⟩)
    okCompletion rfl

/-- Claim C10: with the credential configured, any body that is not valid
JSON or whose question field is absent or not a string is coerced to the
empty question and answered with HTTP 400 and `{error: "Missing
question"}` — never an uncaught exception or a 500. -/
theorem C10_validation_total (apiKey : Option Str) (body : Option ReqBody)
    (completion : Str → Except Str (Option Str))
    (hkey : truthyOptStr apiKey = true)
    (hbody : body = none ∨
      ∃ pb, body = some pb ∧ ∀ s, pb.question ≠ some (JsVal.str s)) :
    POST apiKey body completion =
      ⟨400, RespBody.err missingQuestionMsg, none, 0⟩ := by
  have hq : questionOf body = [] := by
    rcases hbody with h | ⟨pb, hpb, hq⟩
    · subst h
      rfl
    · subst hpb
      obtain ⟨qv⟩ := pb
      cases qv with
      | none => rfl
      | some v =>
        cases v with
        | str s => exact absurd rfl (hq s)
        | other => rfl
  unfold POST
  rw [hkey, hq]
  rfl

/-- Witness for C10: a malformed body (failed JSON parse) with the key
set receives the 400 missing-question response. -/
theorem C10_witness :
    POST (some "sk-test".data) none okCompletion =
      ⟨400, RespBody.err missingQuestionMsg, none, 0⟩ :=
  C10_validation_total (some "sk-test".data) none okCompletion
    (by decide) (Or.inl rfl)

/-- Counterexample to claim C1 as stated: on a concrete valid request
with the credential configured, the handler makes no Catalog Query
Gateway call at all (so no gateway run precedes the completion call), and
the completion API receives exactly the bare question — not the question
plus a rendered context block. -/
theorem C1_counterexample :
    ¬ (1 ≤ c1Post.gatewayCalls) ∧
    c1Post.completionInput = some c1Question :=
  ⟨by decide, by decide⟩

/-- Claim C1 as amended: for every valid request (string question with
non-blank trim) with the completion credential configured, the POST
handler performs no catalog query and invokes the completion API with the
question text alone, with no context block. -/
theorem C1_amended_no_context (apiKey : Option Str) (pb : ReqBody)
    (s : Str) (completion : Str → Except Str (Option Str))
    (hkey : truthyOptStr apiKey = true)
    (hq : pb.question = some (JsVal.str s))
    (hval : (trimList s).isEmpty = false) :
    (POST apiKey (some pb) completion).gatewayCalls = 0 ∧
    (POST apiKey (some pb) completion).completionInput = some s := by
  obtain ⟨qv⟩ := pb
  have h' : qv = some (JsVal.str s) := hq
  subst h'
  have hqn : questionOf (some (⟨some (JsVal.str s)⟩ : ReqBody)) = s := rfl
  unfold POST
  rw [hkey, hqn, hval]
  cases completion s with
  | ok o => exact ⟨rfl, rfl⟩
  | error e => exact ⟨rfl, rfl⟩

/-- Witness for C1 (amended) at a concrete valid request. -/
theorem C1_witness :
    (POST (some "sk-test".data) (some ⟨some (JsVal.str c1Question)⟩)
      okCompletion).gatewayCalls = 0 ∧
    (POST (some "sk-test".data) (some ⟨some (JsVal.str c1Question)⟩)
      okCompletion).completionInput = some c1Question :=
  C1_amended_no_context (some "sk-test".data) ⟨some (JsVal.str c1Question)⟩
    c1Question okCompletion (by decide) rfl (by decide)

end SfUi
